import Mathlib

/-!
Verification of the herrhu97/go-distributed-cache repository (package
caches and servers), shallowly embedded in Lean 4.

Go strings and byte slices are modelled as `List Nat` (their byte
sequences), Go `int`/`int64` as `Int` (64-bit wraparound is modelled
explicitly, via `wrap64`, in the hash functions where overflow is
essential to the behaviour), Go maps as association lists, and wall-clock
time (`time.Now().Unix()`) as an explicit `now : Int` parameter.
-/

/-- Bytes of a Go string or `[]byte` value. -/
abbrev Bytes := List Nat

/-- A cache key (Go `string`), as its byte sequence. -/
abbrev Key := List Nat

/-- Configuration options used by `Segment` (fields and their Go types are
declared by the flag registrations in src/main.go; the struct file itself
is not under src/). Only the fields the Segment code reads are modelled. -/
structure Options where
  MaxEntrySize : Int
  SegmentSize : Int
  MaxGcCount : Int
deriving Repr, DecidableEq

/-- src/caches/value.go: the `value` struct (Data, Ttl, Ctime). -/
structure value where
  Data : Bytes
  Ttl : Int
  Ctime : Int
deriving Repr, DecidableEq

/-- src/caches/value.go `NeverDie = 0`. -/
def NeverDie : Int := 0

/-- src/caches/value.go `newValue`: wraps the data with the given ttl and
creation time `now` (`time.Now().Unix()`); `helpers.Copy` produces a value
copy, which at this level of the model is the byte list itself (buffer
identity is modelled separately below for the sharing claim). -/
def newValue (data : Bytes) (ttl now : Int) : value :=
  ⟨data, ttl, now⟩

/-- src/caches/value.go `alive`: `v.Ttl == NeverDie || time.Now().Unix() - v.Ctime < v.Ttl`. -/
def value.alive (v : value) (now : Int) : Bool :=
  v.Ttl == NeverDie || decide (now - v.Ctime < v.Ttl)

/-- src/caches/status.go: the `Status` struct. -/
structure Status where
  Count : Int
  KeySize : Int
  ValueSize : Int
deriving Repr, DecidableEq

/-- src/caches/status.go `newStatus`. -/
def newStatus : Status := ⟨0, 0, 0⟩

/-- src/caches/status.go `addEntry`. -/
def Status.addEntry (s : Status) (key : Key) (val : Bytes) : Status :=
  ⟨s.Count + 1, s.KeySize + key.length, s.ValueSize + val.length⟩

/-- src/caches/status.go `subEntry`. -/
def Status.subEntry (s : Status) (key : Key) (val : Bytes) : Status :=
  ⟨s.Count - 1, s.KeySize - key.length, s.ValueSize - val.length⟩

/-- src/caches/status.go `entrySize`: `s.ValueSize + s.KeySize`. -/
def Status.entrySize (s : Status) : Int :=
  s.ValueSize + s.KeySize

/-- Lookup in a Go map modelled as an association list. -/
def mapLookup : List (Key × value) → Key → Option value
  | [], _ => none
  | (k, v) :: rest, key => if k = key then some v else mapLookup rest key

/-- Assignment `m[key] = v` to a Go map modelled as an association list. -/
def mapInsert : List (Key × value) → Key → value → List (Key × value)
  | [], key, v => [(key, v)]
  | (k, w) :: rest, key, v =>
    if k = key then (k, v) :: rest else (k, w) :: mapInsert rest key v

/-- `delete(m, key)` on a Go map modelled as an association list. -/
def mapErase : List (Key × value) → Key → List (Key × value)
  | [], _ => []
  | (k, w) :: rest, key =>
    if k = key then mapErase rest key else (k, w) :: mapErase rest key

/-- Update the Ctime of the entry under `key` (the atomic swap performed by
`value.visit`, src/caches/value.go line 49). -/
def mapTouch : List (Key × value) → Key → Int → List (Key × value)
  | [], _, _ => []
  | (k, v) :: rest, key, now =>
    if k = key then (k, ⟨v.Data, v.Ttl, now⟩) :: rest
    else (k, v) :: mapTouch rest key now

/-- src/caches/segment.go: the `Segment` struct (Data map, Status,
options); the lock is a concurrency artefact with no sequential content. -/
structure Segment where
  Data : List (Key × value)
  status : Status
  options : Options
deriving Repr, DecidableEq

/-- src/caches/segment.go `checkEntrySize` (lines 90-92):
`s.Status.entrySize()+int64(len(newKey))+int64(len(newValue)) <=
int64((s.options.MaxEntrySize*1024*1024) / s.options.SegmentSize)`.
Go `/` on int truncates toward zero, hence `Int.tdiv`. -/
def Segment.checkEntrySize (s : Segment) (newKey : Key) (newVal : Bytes) : Bool :=
  decide (s.status.entrySize + (newKey.length : Int) + (newVal.length : Int) ≤
    Int.tdiv (s.options.MaxEntrySize * 1024 * 1024) s.options.SegmentSize)

/-- The error message created at src/caches/segment.go line 63. -/
def capacityErrText : String := "the entry size will exceed if you set this entry"

/-- src/caches/segment.go `set` (lines 52-69): subtract a replaced entry
from the accounting, admission-check the new size, on refusal restore the
accounting and return the capacity error, otherwise account and install
the new value. The returned pair is (error, state after the call). -/
def Segment.set (s : Segment) (key : Key) (val : Bytes) (ttl now : Int) :
    Option String × Segment :=
  let s1 :=
    match mapLookup s.Data key with
    | some oldValue => { s with status := s.status.subEntry key oldValue.Data }
    | none => s
  if s1.checkEntrySize key val then
    (none, { s1 with
               status := s1.status.addEntry key val,
               Data := mapInsert s1.Data key (newValue val ttl now) })
  else
    let s2 :=
      match mapLookup s1.Data key with
      | some oldValue => { s1 with status := s1.status.addEntry key oldValue.Data }
      | none => s1
    (some capacityErrText, s2)

/-- src/caches/segment.go `delete` (lines 72-79). -/
def Segment.del (s : Segment) (key : Key) : Segment :=
  match mapLookup s.Data key with
  | some oldValue =>
      { s with status := s.status.subEntry key oldValue.Data,
               Data := mapErase s.Data key }
  | none => s

/-- src/caches/segment.go `get` (lines 34-49): a miss returns not-found; an
expired entry is deleted and reported not-found; a live entry is returned
and its Ctime swapped to `now` by `value.visit`. -/
def Segment.get (s : Segment) (key : Key) (now : Int) :
    Option Bytes × Segment :=
  match mapLookup s.Data key with
  | none => (none, s)
  | some v =>
    if v.alive now then
      (some v.Data, { s with Data := mapTouch s.Data key now })
    else
      (none, s.del key)

/-- src/caches/segment.go `status` (lines 82-86): returns a copy of the
accounting. -/
def Segment.segStatus (s : Segment) : Status := s.status

/-- src/caches/segment.go `gc` (lines 95-109): range over the map, remove
the entries that are not alive and subtract them from the accounting,
breaking once `count` removals reach MaxGcCount. `count` is the Go loop
counter; the result is the surviving entries and the new accounting. -/
def gcLoop (now maxGcCount : Int) :
    List (Key × value) → Int → Status → List (Key × value) × Status
  | [], _, st => ([], st)
  | (k, v) :: rest, count, st =>
    if v.alive now then
      let r := gcLoop now maxGcCount rest count st
      ((k, v) :: r.1, r.2)
    else
      let st1 := st.subEntry k v.Data
      if count + 1 ≥ maxGcCount then (rest, st1)
      else gcLoop now maxGcCount rest (count + 1) st1

/-- src/caches/segment.go `gc`, packaged on the segment state. -/
def Segment.gc (s : Segment) (now : Int) : Segment :=
  let r := gcLoop now s.options.MaxGcCount s.Data 0 s.status
  { s with Data := r.1, status := r.2 }

/-- Byte buffers with identity: a heap of Go byte slices addressed by
index, used to state the buffer-sharing claim about `newValue`/`visit`. -/
abbrev Heap := List Bytes

/-- Read the buffer at address `a`. -/
def readBuf (h : Heap) (a : Nat) : Bytes := h.getD a []

/-- Overwrite the bytes of the buffer at address `a` in place. -/
def writeBuf (h : Heap) (a : Nat) (b : Bytes) : Heap := h.set a b

/-- Modelled from the spec: `helpers.Copy` (package cache-server/helpers
is not under src/; the spec states that an entry holds an owned copy of
the value bytes). Allocates a fresh buffer holding the same bytes and
returns its address. -/
def heapCopy (h : Heap) (a : Nat) : Heap × Nat := (h ++ [readBuf h a], h.length)

/-- src/caches/value.go `value` at buffer level: Data is a heap address. -/
structure valueRef where
  DataAddr : Nat
  Ttl : Int
  Ctime : Int
deriving Repr, DecidableEq

/-- src/caches/value.go `newValue` (lines 26-32) at buffer level: the
stored Data buffer is `helpers.Copy(data)`, a fresh copy of the
argument buffer. -/
def newValueRef (h : Heap) (dataAddr : Nat) (ttl now : Int) : Heap × valueRef :=
  let hc := heapCopy h dataAddr
  (hc.1, ⟨hc.2, ttl, now⟩)

/-- src/caches/value.go `visit` (lines 40-51) at buffer level: swap Ctime
to `now` and return `v.Data` itself, i.e. the stored buffer address. -/
def valueRef.visit (v : valueRef) (now : Int) : valueRef × Nat :=
  (⟨v.DataAddr, v.Ttl, now⟩, v.DataAddr)

/-- Twos-complement wraparound of a Go 64-bit `int` result. -/
def wrap64 (i : Int) : Int := (i + 2 ^ 63) % 2 ^ 64 - 2 ^ 63

/-- The unsigned 64-bit representation of a Go `int` value. -/
def u64 (i : Int) : Nat := (i % 2 ^ 64).toNat

/-- The Go `int` whose unsigned 64-bit representation is `n`. -/
def ofU64 (n : Nat) : Int :=
  if n % 2 ^ 64 < 2 ^ 63 then ((n % 2 ^ 64 : Nat) : Int)
  else ((n % 2 ^ 64 : Nat) : Int) - 2 ^ 64

/-- Go `^` (xor) on 64-bit ints. -/
def xor64 (a b : Int) : Int := ofU64 (u64 a ^^^ u64 b)

/-- Go `&` on 64-bit ints. -/
def and64 (a b : Int) : Int := ofU64 (u64 a &&& u64 b)

/-- Go `>> 16` on a 64-bit int: an arithmetic shift, which on a
twos-complement value is floor division by 2^16 (Int division in Lean is
Euclidean, which agrees with floor division for a positive divisor). -/
def sar16 (i : Int) : Int := i / 2 ^ 16

/-- src/caches/cache.go `index` accumulator (lines 265-270):
`index = 31*index + int(b&0xff)` over the key bytes, on the 64-bit
signed Go int. -/
def goIndexAcc (key : Key) : Int :=
  key.foldl (fun h b => wrap64 (31 * h + ((b % 256 : Nat) : Int))) 0

/-- src/caches/cache.go `index` (lines 265-272): the accumulator folded by
`index ^ (index >> 16)` (signed, so an arithmetic shift). -/
def goIndex (key : Key) : Int := xor64 (goIndexAcc key) (sar16 (goIndexAcc key))

/-- src/caches/cache.go `segmentOf` (lines 274-278): the position selected
in the segments array, `index(key) & (c.segmentSize - 1)`. -/
def segIndex (key : Key) (segmentSize : Int) : Int :=
  and64 (goIndex key) (segmentSize - 1)

/-- The reference hash of the spec, stated over unsigned arithmetic:
`h = 31*h + b` accumulated over the bytes, folded by the logical shift
`h ^^^ (h >>> 16)`, indexed by `h &&& (N-1)`. The unsigned accumulator is
64 bits wide, the width of the Go int the implementation uses. -/
def refAcc (key : Key) : Nat :=
  key.foldl (fun h b => (31 * h + b % 256) % 2 ^ 64) 0

/-- The folded reference hash, `h ^^^ (h >>> 16)` with a logical shift. -/
def refFold (key : Key) : Nat := refAcc key ^^^ (refAcc key >>> 16)

/-- The reference segment index, `fold &&& (N - 1)`. -/
def refSegIndex (key : Key) (n : Nat) : Nat := refFold key &&& (n - 1)

/-- File names are byte strings, like Go strings. -/
abbrev FileName := List Nat

/-- A file system: an association of file names to file contents. -/
abbrev Fs := List (FileName × Bytes)

/-- Read a whole file (`os.Open` + decode source, `none` when absent). -/
def fsRead : Fs → FileName → Option Bytes
  | [], _ => none
  | (n, c) :: rest, name => if n = name then some c else fsRead rest name

/-- `os.Remove`. -/
def fsRemove (fs : Fs) (name : FileName) : Fs :=
  fs.filter (fun p => p.1 != name)

/-- Create/truncate-and-write a file (`os.OpenFile` with
`O_CREATE|O_TRUNC|O_WRONLY`, then writes). -/
def fsWrite (fs : Fs) (name : FileName) (content : Bytes) : Fs :=
  (name, content) :: fsRemove fs name

/-- `os.Rename oldName newName` (the target is replaced if present). -/
def fsRename (fs : Fs) (oldName newName : FileName) : Fs :=
  match fsRead fs oldName with
  | some c => fsWrite (fsRemove fs oldName) newName c
  | none => fs

/-- src/unnamed/part_002 `to` (lines 49-77), with the output of the gob encoder
(or failure) passed in as `encRes` and the file-system effects explicit:
create/truncate the suffixed file `dumpFile + sfx`; if encoding fails,
close and remove that file and return the error; otherwise write the
image, remove the primary file and rename the suffixed file onto it. -/
def dumpTo (fs : Fs) (dumpFile sfx : FileName) (encRes : Except String Bytes) :
    Option String × Fs :=
  let newDumpFile := dumpFile ++ sfx
  let fs1 := fsWrite fs newDumpFile []
  match encRes with
  | .error e => (some e, fsRemove fs1 newDumpFile)
  | .ok bs =>
    let fs2 := fsWrite fs1 newDumpFile bs
    let fs3 := fsRemove fs2 dumpFile
    (none, fsRename fs3 newDumpFile dumpFile)

/-- src/unnamed/part_000: the Options struct of the single-map cache
version that the dump file round-trips through. -/
structure OptionsV1 where
  MaxEntrySize : Int
  MaxGcCount : Int
  GcDuration : Int
  DumpFile : FileName
  DumpDuration : Int
deriving Repr, DecidableEq

/-- src/unnamed/part_002 (lines 17-26): the `dump` struct: the map of
entries, the configuration and the aggregate status. -/
structure dump where
  Data : List (Key × value)
  Options : OptionsV1
  status : Status
deriving Repr, DecidableEq

/-- src/caches/cache.go (lines 10-26, first version): the single-map
`Cache` that src/unnamed/part_002 serializes: data map, options,
status. -/
structure Cache where
  data : List (Key × value)
  options : OptionsV1
  status : Status
deriving Repr, DecidableEq

/-- src/unnamed/part_002 `newDump` (lines 34-40). -/
def newDump (c : Cache) : dump := ⟨c.data, c.options, c.status⟩

/-- src/caches/cache.go `Delete` (lines 115-123, first version). -/
def Cache.Delete (c : Cache) (key : Key) : Cache :=
  match mapLookup c.data key with
  | some oldValue =>
      { c with status := c.status.subEntry key oldValue.Data,
               data := mapErase c.data key }
  | none => c

/-- src/caches/cache.go `Get` (lines 57-77, first version): identical
logic to `Segment.get` on the single map. -/
def Cache.Get (c : Cache) (key : Key) (now : Int) : Option Bytes × Cache :=
  match mapLookup c.data key with
  | none => (none, c)
  | some v =>
    if v.alive now then
      (some v.Data, { c with data := mapTouch c.data key now })
    else
      (none, c.Delete key)

/-- Modelled from the spec: the dump codec. encoding/gob is outside this
repository; the spec requires only a self-describing binary encoding such
that an image written by this version round-trips through the decoder of
the same version. `encInt` and the functions below realise such a codec
over token streams. -/
def encInt (i : Int) : Bytes := [if i < 0 then 1 else 0, i.natAbs]

/-- Decode an integer, returning the remaining stream. -/
def decInt : Bytes → Option (Int × Bytes)
  | sgn :: mag :: rest =>
      some (if sgn = 1 then -(mag : Int) else (mag : Int), rest)
  | _ => none

/-- Length-prefixed byte-string encoding. -/
def encBytes (b : Bytes) : Bytes := b.length :: b

/-- Decode a length-prefixed byte string. -/
def decBytes : Bytes → Option (Bytes × Bytes)
  | n :: rest => if n ≤ rest.length then some (rest.take n, rest.drop n) else none
  | [] => none

/-- Encoding of a `value` (Data, Ttl, Ctime). -/
def encValue (v : value) : Bytes := encBytes v.Data ++ encInt v.Ttl ++ encInt v.Ctime

/-- Decode a `value`. -/
def decValue (l : Bytes) : Option (value × Bytes) :=
  match decBytes l with
  | none => none
  | some (d, l1) =>
    match decInt l1 with
    | none => none
    | some (ttl, l2) =>
      match decInt l2 with
      | none => none
      | some (ctime, l3) => some (⟨d, ttl, ctime⟩, l3)

/-- Concatenated encoding of the map entries. -/
def encEntries : List (Key × value) → Bytes
  | [] => []
  | (k, v) :: rest => encBytes k ++ encValue v ++ encEntries rest

/-- Decode `n` map entries. -/
def decEntries : Nat → Bytes → Option (List (Key × value) × Bytes)
  | 0, l => some ([], l)
  | n + 1, l =>
    match decBytes l with
    | none => none
    | some (k, l1) =>
      match decValue l1 with
      | none => none
      | some (v, l2) =>
        match decEntries n l2 with
        | none => none
        | some (m, l3) => some ((k, v) :: m, l3)

/-- Encoding of the v1 Options. -/
def encOptionsV1 (o : OptionsV1) : Bytes :=
  encInt o.MaxEntrySize ++ encInt o.MaxGcCount ++ encInt o.GcDuration ++
    encBytes o.DumpFile ++ encInt o.DumpDuration

/-- Decode the v1 Options. -/
def decOptionsV1 (l : Bytes) : Option (OptionsV1 × Bytes) :=
  match decInt l with
  | none => none
  | some (mes, l1) =>
    match decInt l1 with
    | none => none
    | some (mgc, l2) =>
      match decInt l2 with
      | none => none
      | some (gcd, l3) =>
        match decBytes l3 with
        | none => none
        | some (df, l4) =>
          match decInt l4 with
          | none => none
          | some (dd, l5) => some (⟨mes, mgc, gcd, df, dd⟩, l5)

/-- Encoding of a Status. -/
def encStatus (st : Status) : Bytes :=
  encInt st.Count ++ encInt st.KeySize ++ encInt st.ValueSize

/-- Decode a Status. -/
def decStatus (l : Bytes) : Option (Status × Bytes) :=
  match decInt l with
  | none => none
  | some (c, l1) =>
    match decInt l1 with
    | none => none
    | some (ks, l2) =>
      match decInt l2 with
      | none => none
      | some (vs, l3) => some (⟨c, ks, vs⟩, l3)

/-- Encoding of the whole dump image (entry count, entries, options,
status). -/
def encDump (d : dump) : Bytes :=
  d.Data.length :: encEntries d.Data ++ encOptionsV1 d.Options ++ encStatus d.status

/-- Decode a dump image. -/
def decDump : Bytes → Option (dump × Bytes)
  | [] => none
  | n :: l0 =>
    match decEntries n l0 with
    | none => none
    | some (m, l1) =>
      match decOptionsV1 l1 with
      | none => none
      | some (o, l2) =>
        match decStatus l2 with
        | none => none
        | some (st, l3) => some (⟨m, o, st⟩, l3)

/-- src/unnamed/part_002 `from` (lines 80-99): open the dump file, decode
a dump structure out of it, and build a Cache from the decoded fields;
open and decode failures are reported as errors. -/
def dumpFrom (fs : Fs) (dumpFile : FileName) : Except String Cache :=
  match fsRead fs dumpFile with
  | none => .error "open failed"
  | some bs =>
    match decDump bs with
    | none => .error "decode failed"
    | some (d, _) => .ok ⟨d.Data, d.Options, d.status⟩

/-- src/servers/server.go `redirectPrefix` constant (line 46), the
redirect error marker `"redirect to node"`, as its character list. -/
def redirectMark : List Char := "redirect to node".toList

/-- src/servers/tcp.go (lines 207-209): the redirect error text a
non-owner server produces, `fmt.Errorf("redirect to node %s", node)`. -/
def redirectErrText (node : List Char) : List Char :=
  "redirect to node ".toList ++ node

/-- strings.TrimPrefix as used at src/servers/server.go line 184: drop the
marker if it heads the string, else return the string unchanged. -/
def trimPre (s p : List Char) : List Char :=
  if p.isPrefixOf s then s.drop p.length else s

/-- src/servers/server.go `maxRedirectTimes` (line 49). -/
def maxRedirectTimes : Nat := 5

/-- src/servers/server.go `errReachedMaxRetriedTimesErr` text (line 58),
source typo included. -/
def reachedMaxRedirectsText : List Char := "reaced max redirect times".toList

/-- src/servers/server.go `doCommand` (lines 177-203), the network
abstracted: `respond client` is the outcome of `client.Do(command, args)`
on the connection named `client`; `connect node` is
`getOrCreateClient(node)` (a connection, or none on dial failure). The
Nat is the remaining loop iterations (`maxRedirectTimes` initially); on a
redirect error the node is extracted with TrimPrefix and retried, on a
connect failure the loop continues with the same client, and any other
outcome is returned as is. -/
def doCommandLoop (respond : List Char → Except (List Char) Bytes)
    (connect : List Char → Option (List Char)) :
    Nat → List Char → Except (List Char) Bytes
  | 0, _ => .error reachedMaxRedirectsText
  | n + 1, client =>
    match respond client with
    | .ok body => .ok body
    | .error e =>
      if redirectMark.isPrefixOf e then
        match connect (trimPre e redirectMark) with
        | some c2 => doCommandLoop respond connect n c2
        | none => doCommandLoop respond connect n client
      else .error e

theorem mapLookup_insert_self (m : List (Key × value)) (key : Key) (v : value) :
    mapLookup (mapInsert m key v) key = some v := by
  induction m with
  | nil => simp [mapInsert, mapLookup]
  | cons kv rest ih =>
    obtain ⟨k, w⟩ := kv
    by_cases h : k = key <;> simp [mapInsert, mapLookup, h, ih]

theorem mapLookup_erase_self (m : List (Key × value)) (key : Key) :
    mapLookup (mapErase m key) key = none := by
  induction m with
  | nil => simp [mapErase, mapLookup]
  | cons kv rest ih =>
    obtain ⟨k, w⟩ := kv
    by_cases h : k = key <;> simp [mapErase, mapLookup, h, ih]

theorem Segment.set_ok_lookup (s : Segment) (key : Key) (val : Bytes)
    (ttl now : Int) (h : (s.set key val ttl now).1 = none) :
    mapLookup (s.set key val ttl now).2.Data key = some ⟨val, ttl, now⟩ ∧
    (s.set key val ttl now).2.options = s.options := by
  unfold Segment.set at h ⊢
  cases hl : mapLookup s.Data key with
  | none =>
    simp only [hl] at h ⊢
    by_cases hc : s.checkEntrySize key val <;>
      simp [hc, hl, mapLookup_insert_self, newValue] at h ⊢
  | some oldValue =>
    simp only [hl] at h ⊢
    by_cases hc : Segment.checkEntrySize
        { s with status := s.status.subEntry key oldValue.Data } key val <;>
      simp [hc, hl, mapLookup_insert_self, newValue] at h ⊢

/-- On the refusal path `set` restores the accounting it subtracted and
leaves the map untouched, so the whole Segment state is unchanged. -/
theorem Segment.set_error_state_eq (s : Segment) (key : Key) (val : Bytes)
    (ttl now : Int) (e : String)
    (h : (s.set key val ttl now).1 = some e) :
    (s.set key val ttl now).2 = s := by
  unfold Segment.set at h ⊢
  cases hl : mapLookup s.Data key with
  | none =>
    simp only [hl] at h ⊢
    by_cases hc : s.checkEntrySize key val <;> simp [hc, hl] at h ⊢
  | some oldValue =>
    simp only [hl] at h ⊢
    by_cases hc : Segment.checkEntrySize { s with status := s.status.subEntry key oldValue.Data } key val
    · simp [hc] at h
    · simp only [hc, Bool.false_eq_true, if_false, hl]
      cases s with
      | mk d st opts =>
        simp only [Status.subEntry, Status.addEntry]
        cases st with
        | mk c ks vs =>
          simp only [Segment.mk.injEq, Status.mk.injEq]
          refine ⟨trivial, ⟨by ring, by ring, by ring⟩, trivial⟩

/-- Claim C1: if `set(k, v, ttl)` returns the capacity error, the Segment
is unchanged: a subsequent `get(k)` (at any time) returns exactly what it
returned before the attempted set, and `status()` returns the same
Count, KeySize and ValueSize as before. -/
theorem claim1_set_error_is_noop (s : Segment) (key : Key) (val : Bytes)
    (ttl now : Int) (e : String)
    (h : (s.set key val ttl now).1 = some e) (t : Int) (k2 : Key) :
    ((s.set key val ttl now).2).get k2 t = s.get k2 t ∧
    ((s.set key val ttl now).2).segStatus = s.segStatus := by
  rw [Segment.set_error_state_eq s key val ttl now e h]
  exact ⟨rfl, rfl⟩

/-- Witness for C1 at a concrete refused write: a Segment with budget 0
refuses `set [7] [1]`, and afterwards `get` and `status` are unchanged. -/
theorem claim1_witness :
    ((Segment.mk [] newStatus ⟨0, 1, 100⟩).set [7] [1] 0 0).1 = some capacityErrText ∧
    (((Segment.mk [] newStatus ⟨0, 1, 100⟩).set [7] [1] 0 0).2).get [7] 5 =
      (Segment.mk [] newStatus ⟨0, 1, 100⟩).get [7] 5 ∧
    (((Segment.mk [] newStatus ⟨0, 1, 100⟩).set [7] [1] 0 0).2).segStatus =
      (Segment.mk [] newStatus ⟨0, 1, 100⟩).segStatus := by
  refine ⟨by decide, ?_⟩
  exact claim1_set_error_is_noop (Segment.mk [] newStatus ⟨0, 1, 100⟩) [7] [1] 0 0
    capacityErrText (by decide) 5 [7]

/-- Claim C2: after a successful `set(k, v, ttl)` with `ttl > 0` performed
at time `ctime`, a `get(k)` strictly before `ctime + ttl` returns `v`,
while a `get(k)` at or after `ctime + ttl` returns not-found, removes `k`
from the map, and subtracts it from the accounting, so `status()` no
longer counts it. -/
theorem claim2_ttl_expiry (s : Segment) (k : Key) (v : Bytes)
    (ttl ctime : Int) (hset : (s.set k v ttl ctime).1 = none)
    (httl : 0 < ttl) (t : Int) :
    (t < ctime + ttl → (((s.set k v ttl ctime).2).get k t).1 = some v) ∧
    (ctime + ttl ≤ t →
      (((s.set k v ttl ctime).2).get k t).1 = none ∧
      mapLookup ((((s.set k v ttl ctime).2).get k t).2).Data k = none ∧
      ((((s.set k v ttl ctime).2).get k t).2).segStatus.Count =
        ((s.set k v ttl ctime).2).segStatus.Count - 1 ∧
      ((((s.set k v ttl ctime).2).get k t).2).segStatus.KeySize =
        ((s.set k v ttl ctime).2).segStatus.KeySize - k.length ∧
      ((((s.set k v ttl ctime).2).get k t).2).segStatus.ValueSize =
        ((s.set k v ttl ctime).2).segStatus.ValueSize - v.length) := by
  obtain ⟨hlk, -⟩ := Segment.set_ok_lookup s k v ttl ctime hset
  have httl0 : (ttl == NeverDie) = false := by
    simp [NeverDie]
    omega
  constructor
  · intro hlive
    have halive : value.alive ⟨v, ttl, ctime⟩ t = true := by
      simp [value.alive, httl0]
      omega
    simp [Segment.get, hlk, halive]
  · intro hdead
    have halive : value.alive ⟨v, ttl, ctime⟩ t = false := by
      simp [value.alive, httl0]
      omega
    simp only [Segment.get, hlk, halive, Bool.false_eq_true, if_false]
    simp [Segment.del, hlk, mapLookup_erase_self, Segment.segStatus,
      Status.subEntry]

/-- Witness for C2: on an empty segment with budget 100, `set [1] [9]`
with ttl 10 at time 0 succeeds; `get` at time 9 yields the value, and
`get` at time 10 yields not-found with the entry removed and
unaccounted. -/
theorem claim2_witness :
    ((Segment.mk [] newStatus ⟨100, 1, 100⟩).set [1] [9] 10 0).1 = none ∧
    ((((Segment.mk [] newStatus ⟨100, 1, 100⟩).set [1] [9] 10 0).2).get [1] 9).1 =
      some [9] ∧
    ((((Segment.mk [] newStatus ⟨100, 1, 100⟩).set [1] [9] 10 0).2).get [1] 10).1 =
      none := by
  have h2 := claim2_ttl_expiry (Segment.mk [] newStatus ⟨100, 1, 100⟩) [1] [9] 10 0
    (by decide) (by decide)
  exact ⟨by decide, (h2 9).1 (by decide), ((h2 10).2 (by decide)).1⟩

/-- Claim C3: `set(k, v, ttl)` succeeds if and only if the accounting
after removing any replaced entry, plus `len k + len v`, is at most the
per-segment budget `MaxEntrySize*1024*1024 / SegmentSize` (Go integer
division); on refusal it installs nothing: the map is unchanged. -/
theorem claim3_capacity_admission (s : Segment) (k : Key) (v : Bytes)
    (ttl now : Int) :
    ((s.set k v ttl now).1 = none ↔
      (match mapLookup s.Data k with
       | some oldValue =>
           s.status.entrySize - (k.length : Int) - (oldValue.Data.length : Int)
       | none => s.status.entrySize) + (k.length : Int) + (v.length : Int) ≤
        Int.tdiv (s.options.MaxEntrySize * 1024 * 1024) s.options.SegmentSize) ∧
    ((s.set k v ttl now).1 ≠ none → (s.set k v ttl now).2.Data = s.Data) := by
  unfold Segment.set
  cases hl : mapLookup s.Data k with
  | none =>
    by_cases hc : s.checkEntrySize k v <;>
      simp only [hl, hc, Bool.false_eq_true, if_true, if_false] <;>
      simp [Segment.checkEntrySize] at hc <;>
      simp [hc]
  | some oldValue =>
    by_cases hc : Segment.checkEntrySize
        { s with status := s.status.subEntry k oldValue.Data } k v <;>
      simp only [hl, hc, Bool.false_eq_true, if_true, if_false] <;>
      simp only [Segment.checkEntrySize, Status.entrySize, Status.subEntry,
        decide_eq_true_eq, not_le] at hc <;>
      constructor
    · simp only [true_iff, Status.entrySize]
      ring_nf at hc ⊢
      omega
    · simp
    · simp only [Status.entrySize]
      constructor
      · intro habs
        simp at habs
      · intro hle
        ring_nf at hc hle
        omega
    · intro
      simp [hl]

/-- Witness for C3: a segment with budget 0 refuses a write whose
footprint is 3 bytes, and the map is unchanged by the refusal. -/
theorem claim3_witness :
    ((Segment.mk [] newStatus ⟨0, 1, 100⟩).set [7] [1, 2] 0 0).1 ≠ none ∧
    ((Segment.mk [] newStatus ⟨0, 1, 100⟩).set [7] [1, 2] 0 0).2.Data = [] :=
  ⟨by decide,
   (claim3_capacity_admission (Segment.mk [] newStatus ⟨0, 1, 100⟩)
     [7] [1, 2] 0 0).2 (by decide)⟩

theorem gcLoop_sublist_mem (now maxGcCount : Int) (l : List (Key × value)) :
    ∀ (count : Int) (st : Status),
      List.Sublist (gcLoop now maxGcCount l count st).1 l ∧
      ∀ kv ∈ l, kv.2.alive now = true → kv ∈ (gcLoop now maxGcCount l count st).1 := by
  induction l with
  | nil => intro count st; simp [gcLoop]
  | cons hd rest ih =>
    intro count st
    obtain ⟨k, v⟩ := hd
    by_cases ha : v.alive now
    · simp only [gcLoop, ha, if_true]
      refine ⟨List.Sublist.cons₂ _ (ih count st).1, ?_⟩
      intro kv hkv hal
      rcases List.mem_cons.mp hkv with h | h
      · subst h
        exact List.mem_cons_self _ _
      · exact List.mem_cons_of_mem _ ((ih count st).2 kv h hal)
    · by_cases hb : count + 1 ≥ maxGcCount
      · simp only [gcLoop, ha, Bool.false_eq_true, if_false, hb, if_true]
        refine ⟨List.sublist_cons_self _ _, ?_⟩
        intro kv hkv hal
        rcases List.mem_cons.mp hkv with h | h
        · subst h
          exact absurd hal ha
        · exact h
      · simp only [gcLoop, ha, Bool.false_eq_true, if_false, hb]
        refine ⟨((ih (count + 1) (st.subEntry k v.Data)).1).trans
          (List.sublist_cons_self _ _), ?_⟩
        intro kv hkv hal
        rcases List.mem_cons.mp hkv with h | h
        · subst h
          exact absurd hal ha
        · exact (ih (count + 1) (st.subEntry k v.Data)).2 kv h hal

theorem gcLoop_length (now maxGcCount : Int) (l : List (Key × value)) :
    ∀ (count : Int) (st : Status),
      count < maxGcCount →
      (maxGcCount - count).toNat ≤ l.countP (fun kv => !kv.2.alive now) →
      (gcLoop now maxGcCount l count st).1.length
        = l.length - (maxGcCount - count).toNat := by
  induction l with
  | nil =>
    intro count st hcnt hle
    simp only [List.countP_nil, Nat.le_zero] at hle
    omega
  | cons hd rest ih =>
    intro count st hcnt hle
    obtain ⟨k, v⟩ := hd
    rw [List.countP_cons] at hle
    by_cases ha : v.alive now
    · simp only [ha] at hle
      simp only [Bool.not_true, Bool.false_eq_true, if_false, Nat.add_zero] at hle
      simp only [gcLoop, ha, if_true, List.length_cons]
      have hres := ih count st hcnt hle
      have hlen : rest.countP (fun kv => !kv.2.alive now) ≤ rest.length :=
        List.countP_le_length _
      omega
    · rw [Bool.not_eq_true] at ha
      simp only [ha] at hle
      simp only [Bool.not_false, if_true] at hle
      by_cases hb : count + 1 ≥ maxGcCount
      · simp only [gcLoop, ha, Bool.false_eq_true, if_false, hb, if_true,
          List.length_cons]
        omega
      · simp only [gcLoop, ha, Bool.false_eq_true, if_false, hb,
          List.length_cons]
        have hrec := ih (count + 1) (st.subEntry k v.Data) (by omega) (by omega)
        have hlen : rest.countP (fun kv => !kv.2.alive now) ≤ rest.length :=
          List.countP_le_length _
        omega

/-- Claim C6: one gc pass removes only expired entries: the surviving map
is a sublist of the original and every live entry survives; it stops
after MaxGcCount removals, not iterations: with MaxGcCount ≥ 1 and at
least MaxGcCount expired entries, exactly MaxGcCount entries are removed,
the remaining expired entries staying for a later pass. -/
theorem claim6_gc_bound (s : Segment) (now : Int)
    (hmax : 1 ≤ s.options.MaxGcCount) :
    List.Sublist ((s.gc now).Data) s.Data ∧
    (∀ kv ∈ s.Data, kv.2.alive now = true → kv ∈ (s.gc now).Data) ∧
    (s.options.MaxGcCount.toNat ≤ s.Data.countP (fun kv => !kv.2.alive now) →
      ((s.gc now).Data).length = s.Data.length - s.options.MaxGcCount.toNat) := by
  refine ⟨(gcLoop_sublist_mem now s.options.MaxGcCount s.Data 0 s.status).1,
    (gcLoop_sublist_mem now s.options.MaxGcCount s.Data 0 s.status).2, ?_⟩
  intro hcount
  have hres := gcLoop_length now s.options.MaxGcCount s.Data 0 s.status
    (by omega) (by simpa using hcount)
  simpa [Segment.gc] using hres

/-- Witness for C6: a segment of three expired entries with MaxGcCount 2:
one gc pass removes exactly two of them. -/
theorem claim6_witness :
    (((Segment.mk [([1], ⟨[5], 5, 0⟩), ([2], ⟨[6], 5, 0⟩), ([3], ⟨[7], 5, 0⟩)]
        newStatus ⟨100, 1, 2⟩).gc 10).Data).length = 1 := by
  have h := claim6_gc_bound (Segment.mk [([1], ⟨[5], 5, 0⟩), ([2], ⟨[6], 5, 0⟩),
    ([3], ⟨[7], 5, 0⟩)] newStatus ⟨100, 1, 2⟩) 10 (by decide)
  have hlen := h.2.2 (by decide)
  rw [hlen]
  decide

/-- Claim C4 counterexample: over the one-buffer heap [[7]], store an
entry (which copies the buffer to address 1) and then visit it: the
returned "slice" is the stored buffer address itself, so writing [9]
through the returned address changes the stored value from [7] to [9] --
a read does not hand out a fresh copy. -/
theorem claim4_counterexample :
    ((newValueRef [[7]] 0 5 100).2.visit 200).2 =
      (newValueRef [[7]] 0 5 100).2.DataAddr ∧
    readBuf (newValueRef [[7]] 0 5 100).1 (newValueRef [[7]] 0 5 100).2.DataAddr
      = [7] ∧
    readBuf (writeBuf (newValueRef [[7]] 0 5 100).1
        ((newValueRef [[7]] 0 5 100).2.visit 200).2 [9])
      (newValueRef [[7]] 0 5 100).2.DataAddr = [9] := by
  decide

/-- Claim C4 amended: `set` stores an owned copy: `newValue` copies the
buffer of the caller to a fresh address holding the same bytes, so later
writes through the address of the caller leave the stored bytes unchanged; but
`visit` (the read path of a live entry) returns the stored buffer itself,
not a fresh copy, so mutating the slice returned by get mutates the
stored value. -/
theorem claim4_value_buffer_ownership (h : Heap) (a : Nat) (ttl now t : Int)
    (b : Bytes) (ha : a < h.length) :
    (newValueRef h a ttl now).2.DataAddr ≠ a ∧
    readBuf (newValueRef h a ttl now).1 (newValueRef h a ttl now).2.DataAddr
      = readBuf h a ∧
    readBuf (writeBuf (newValueRef h a ttl now).1 a b)
        (newValueRef h a ttl now).2.DataAddr
      = readBuf (newValueRef h a ttl now).1 (newValueRef h a ttl now).2.DataAddr ∧
    ((newValueRef h a ttl now).2.visit t).2 = (newValueRef h a ttl now).2.DataAddr := by
  have hread : readBuf (h ++ [readBuf h a]) h.length = readBuf h a := by
    simp only [readBuf, List.getD_eq_getElem?_getD,
      List.getElem?_append_right (Nat.le_refl h.length)]
    simp
  refine ⟨?_, ?_, ?_, rfl⟩
  · simp only [newValueRef, heapCopy]
    omega
  · simpa [newValueRef, heapCopy] using hread
  · simp only [newValueRef, heapCopy, writeBuf, readBuf,
      List.getD_eq_getElem?_getD]
    rw [List.getElem?_set_ne (by omega)]

/-- Witness for the amended C4 at the concrete heap [[3, 4]]. -/
theorem claim4_witness :
    (newValueRef [[3, 4]] 0 7 50).2.DataAddr ≠ 0 ∧
    readBuf (newValueRef [[3, 4]] 0 7 50).1
        (newValueRef [[3, 4]] 0 7 50).2.DataAddr = readBuf [[3, 4]] 0 ∧
    readBuf (writeBuf (newValueRef [[3, 4]] 0 7 50).1 0 [8])
        (newValueRef [[3, 4]] 0 7 50).2.DataAddr
      = readBuf (newValueRef [[3, 4]] 0 7 50).1
          (newValueRef [[3, 4]] 0 7 50).2.DataAddr ∧
    ((newValueRef [[3, 4]] 0 7 50).2.visit 60).2 =
      (newValueRef [[3, 4]] 0 7 50).2.DataAddr :=
  claim4_value_buffer_ownership [[3, 4]] 0 7 50 60 [8] (by decide)

theorem fsRead_remove (fs : Fs) (name m : FileName) :
    fsRead (fsRemove fs name) m = if m = name then none else fsRead fs m := by
  induction fs with
  | nil => simp [fsRemove, fsRead]
  | cons p rest ih =>
    obtain ⟨n, c⟩ := p
    simp only [fsRemove, List.filter_cons] at ih ⊢
    by_cases hn : n = name
    · have hb : ((n, c).1 != name) = false := by simp [hn]
      rw [hb]
      by_cases hm : m = name
      · subst hm
        simp [ih]
      · have hnm : n ≠ m := fun h => hm (h ▸ hn)
        simp [ih, hm, fsRead, hnm]
    · have hb : ((n, c).1 != name) = true := by simp [hn]
      rw [hb]
      by_cases hm : m = name
      · subst hm
        simp [fsRead, hn, ih]
      · by_cases hnm : n = m <;> simp [ih, hm, fsRead, hnm]

theorem fsRead_write (fs : Fs) (name m : FileName) (c : Bytes) :
    fsRead (fsWrite fs name c) m = if m = name then some c else fsRead fs m := by
  simp only [fsWrite, fsRead]
  by_cases hm : m = name
  · subst hm
    simp
  · rw [if_neg (fun h => hm h.symm), fsRead_remove, if_neg hm, if_neg hm]

/-- Claim C7: if the encode step fails, `to` returns the error, the
suffixed temporary file is removed, and the primary dump file keeps
exactly its previous contents; on a successful encode no error is
returned and the primary file holds the fully encoded image (remove and
rename happen only after encoding succeeded). -/
theorem claim7_dump_atomic (fs : Fs) (dumpFile sfx : FileName)
    (hs : sfx ≠ []) :
    (∀ e : String,
      (dumpTo fs dumpFile sfx (.error e)).1 = some e ∧
      fsRead (dumpTo fs dumpFile sfx (.error e)).2 dumpFile =
        fsRead fs dumpFile ∧
      fsRead (dumpTo fs dumpFile sfx (.error e)).2 (dumpFile ++ sfx) = none) ∧
    (∀ bs : Bytes,
      (dumpTo fs dumpFile sfx (.ok bs)).1 = none ∧
      fsRead (dumpTo fs dumpFile sfx (.ok bs)).2 dumpFile = some bs) := by
  have hne : dumpFile ++ sfx ≠ dumpFile := by
    intro heq
    have hlen := congrArg List.length heq
    simp only [List.length_append] at hlen
    have hz : sfx.length = 0 := by omega
    exact hs (List.length_eq_zero.mp hz)
  have hne2 : dumpFile ≠ dumpFile ++ sfx := fun h => hne h.symm
  constructor
  · intro e
    refine ⟨rfl, ?_, ?_⟩
    · show fsRead (fsRemove (fsWrite fs (dumpFile ++ sfx) [])
        (dumpFile ++ sfx)) dumpFile = fsRead fs dumpFile
      rw [fsRead_remove, if_neg hne2, fsRead_write, if_neg hne2]
    · show fsRead (fsRemove (fsWrite fs (dumpFile ++ sfx) [])
        (dumpFile ++ sfx)) (dumpFile ++ sfx) = none
      rw [fsRead_remove, if_pos rfl]
  · intro bs
    refine ⟨rfl, ?_⟩
    show fsRead (fsRename
        (fsRemove (fsWrite (fsWrite fs (dumpFile ++ sfx) [])
          (dumpFile ++ sfx) bs) dumpFile)
        (dumpFile ++ sfx) dumpFile) dumpFile = some bs
    have h1 : fsRead (fsRemove (fsWrite (fsWrite fs (dumpFile ++ sfx) [])
        (dumpFile ++ sfx) bs) dumpFile) (dumpFile ++ sfx) = some bs := by
      rw [fsRead_remove, if_neg hne, fsRead_write, if_pos rfl]
    rw [fsRename, h1, fsRead_write, if_pos rfl]

/-- Witness for C7 at a concrete file system: with primary file [1]
holding [9] and suffix [2], a failed encode returns the error and leaves
[9] in place with no temporary, and a successful encode of [4, 5]
replaces the primary contents with [4, 5]. -/
theorem claim7_witness :
    ((dumpTo [([1], [9])] [1] [2] (.error "boom")).1 = some "boom" ∧
      fsRead (dumpTo [([1], [9])] [1] [2] (.error "boom")).2 [1] =
        fsRead [([1], [9])] [1] ∧
      fsRead (dumpTo [([1], [9])] [1] [2] (.error "boom")).2 ([1] ++ [2]) =
        none) ∧
    ((dumpTo [([1], [9])] [1] [2] (.ok [4, 5])).1 = none ∧
      fsRead (dumpTo [([1], [9])] [1] [2] (.ok [4, 5])).2 [1] = some [4, 5]) :=
  ⟨(claim7_dump_atomic [([1], [9])] [1] [2] (by decide)).1 "boom",
   (claim7_dump_atomic [([1], [9])] [1] [2] (by decide)).2 [4, 5]⟩

theorem decInt_enc (i : Int) (r : Bytes) : decInt (encInt i ++ r) = some (i, r) := by
  by_cases hi : i < 0
  · simp only [encInt, if_pos hi, List.cons_append, decInt, reduceIte]
    have hab : -(i.natAbs : Int) = i := by omega
    rw [hab]
    simp
  · simp only [encInt, if_neg hi, List.cons_append, decInt, reduceIte]
    have hab : ((i.natAbs : Int)) = i := by omega
    rw [hab]
    simp

theorem decBytes_enc (b r : Bytes) : decBytes (encBytes b ++ r) = some (b, r) := by
  simp only [encBytes, List.cons_append, decBytes, List.length_append]
  rw [if_pos (Nat.le_add_right _ _)]
  rw [List.take_left, List.drop_left]

theorem decValue_enc (v : value) (r : Bytes) :
    decValue (encValue v ++ r) = some (v, r) := by
  simp [encValue, decValue, List.append_assoc, decBytes_enc, decInt_enc]

theorem decEntries_enc (m : List (Key × value)) (r : Bytes) :
    decEntries m.length (encEntries m ++ r) = some (m, r) := by
  induction m with
  | nil => simp [encEntries, decEntries]
  | cons kv rest ih =>
    obtain ⟨k, v⟩ := kv
    simp [encEntries, decEntries, List.append_assoc, decBytes_enc,
      decValue_enc, ih]

theorem decOptionsV1_enc (o : OptionsV1) (r : Bytes) :
    decOptionsV1 (encOptionsV1 o ++ r) = some (o, r) := by
  simp [encOptionsV1, decOptionsV1, List.append_assoc, decBytes_enc, decInt_enc]

theorem decStatus_enc (st : Status) (r : Bytes) :
    decStatus (encStatus st ++ r) = some (st, r) := by
  simp [encStatus, decStatus, List.append_assoc, decInt_enc]

theorem decStatus_enc_nil (st : Status) : decStatus (encStatus st) = some (st, []) := by
  have h := decStatus_enc st []
  simpa using h

theorem decDump_enc (d : dump) : decDump (encDump d) = some (d, []) := by
  simp [encDump, decDump, List.append_assoc, decEntries_enc, decOptionsV1_enc,
    decStatus_enc_nil]

theorem append_suffix_ne (a b : FileName) (hb : b ≠ []) : a ++ b ≠ a := by
  intro heq
  have hlen := congrArg List.length heq
  simp only [List.length_append] at hlen
  have hz : b.length = 0 := by omega
  exact hb (List.length_eq_zero.mp hz)

theorem dumpTo_ok_read (fs : Fs) (dumpFile sfx : FileName) (bs : Bytes)
    (hs : sfx ≠ []) :
    fsRead (dumpTo fs dumpFile sfx (.ok bs)).2 dumpFile = some bs := by
  have hne := append_suffix_ne dumpFile sfx hs
  show fsRead (fsRename
      (fsRemove (fsWrite (fsWrite fs (dumpFile ++ sfx) [])
        (dumpFile ++ sfx) bs) dumpFile)
      (dumpFile ++ sfx) dumpFile) dumpFile = some bs
  have h1 : fsRead (fsRemove (fsWrite (fsWrite fs (dumpFile ++ sfx) [])
      (dumpFile ++ sfx) bs) dumpFile) (dumpFile ++ sfx) = some bs := by
    rw [fsRead_remove, if_neg hne, fsRead_write, if_pos rfl]
  rw [fsRename, h1, fsRead_write, if_pos rfl]

/-- Claim C8: dump round-trip. Encoding the full cache and writing it with
`to`, then decoding with `from`, reconstructs a cache whose `Get` outcome
(same value bytes, or not-found) agrees with that of the original cache at every
key -- in particular at every key present before the dump. -/
theorem claim8_dump_roundtrip (c : Cache) (fs : Fs) (dumpFile sfx : FileName)
    (hs : sfx ≠ []) :
    (dumpTo fs dumpFile sfx (.ok (encDump (newDump c)))).1 = none ∧
    ∃ c2 : Cache,
      dumpFrom (dumpTo fs dumpFile sfx (.ok (encDump (newDump c)))).2 dumpFile
        = .ok c2 ∧
      ∀ (k : Key) (now : Int), (c2.Get k now).1 = (c.Get k now).1 := by
  refine ⟨rfl, c, ?_, fun k now => rfl⟩
  simp only [dumpFrom, dumpTo_ok_read fs dumpFile sfx _ hs, decDump_enc]
  rfl

/-- Witness for C8 at a concrete one-entry cache dumped over the empty
file system into file [1] with suffix [2]. -/
theorem claim8_witness :
    (dumpTo [] [1] [2]
      (.ok (encDump (newDump (Cache.mk [([1], ⟨[2], 0, 0⟩)]
        ⟨4, 1000, 60, [3], 30⟩ ⟨1, 1, 1⟩))))).1 = none ∧
    ∃ c2 : Cache,
      dumpFrom (dumpTo [] [1] [2]
        (.ok (encDump (newDump (Cache.mk [([1], ⟨[2], 0, 0⟩)]
          ⟨4, 1000, 60, [3], 30⟩ ⟨1, 1, 1⟩))))).2 [1] = .ok c2 ∧
      ∀ (k : Key) (now : Int),
        (c2.Get k now).1 =
          ((Cache.mk [([1], ⟨[2], 0, 0⟩)]
            ⟨4, 1000, 60, [3], 30⟩ ⟨1, 1, 1⟩).Get k now).1 :=
  claim8_dump_roundtrip (Cache.mk [([1], ⟨[2], 0, 0⟩)]
    ⟨4, 1000, 60, [3], 30⟩ ⟨1, 1, 1⟩) [] [1] [2] (by decide)

/-- Claim C9, code defect: the server formats its redirect error as
`redirect to node <owner-address>` (a space between marker and address),
but `doCommand` trims only the 16-character marker `redirect to node`,
so the extracted node is ` <owner-address>` with a leading space, not
exactly the owner address; as a consequence, even when the owner accepts
connections under its exact address, the redirect loop never reaches it:
all `maxRedirectTimes = 5` attempts are consumed and the call fails with
the reached-max-redirects error. -/
theorem claim9_redirect_extraction_defect :
    trimPre (redirectErrText "10.0.0.2:6789".toList) redirectMark =
      " 10.0.0.2:6789".toList ∧
    " 10.0.0.2:6789".toList ≠ "10.0.0.2:6789".toList ∧
    doCommandLoop (fun _ => .error (redirectErrText "10.0.0.2:6789".toList))
      (fun node => if node = "10.0.0.2:6789".toList then some node else none)
      maxRedirectTimes "node-a".toList = .error reachedMaxRedirectsText := by
  refine ⟨rfl, by decide, rfl⟩

theorem u64_wrap_step (h : Int) (b : Nat) :
    u64 (wrap64 (31 * h + ((b % 256 : Nat) : Int))) = (31 * u64 h + b % 256) % 2 ^ 64 := by
  unfold wrap64 u64
  omega

theorem wrap64_bounds (i : Int) : -2 ^ 63 ≤ wrap64 i ∧ wrap64 i < 2 ^ 63 := by
  unfold wrap64
  omega

theorem u64_sar16 (h : Int) (h1 : -2 ^ 63 ≤ h) (h2 : h < 2 ^ 63) :
    u64 (sar16 h) = u64 h / 2 ^ 16 + (u64 h / 2 ^ 63) * (2 ^ 64 - 2 ^ 48) := by
  unfold sar16 u64
  omega

theorem u64_ofU64 (m : Nat) : u64 (ofU64 m) = m % 2 ^ 64 := by
  unfold ofU64 u64
  split <;> omega

theorem u64_lt (i : Int) : u64 i < 2 ^ 64 := by
  unfold u64
  omega

theorem ofU64_small (m : Nat) (hm : m < 2 ^ 63) : ofU64 m = (m : Int) := by
  unfold ofU64
  split <;> omega

theorem goIndexAcc_spec (key : Key) :
    -2 ^ 63 ≤ goIndexAcc key ∧ goIndexAcc key < 2 ^ 63 ∧
      u64 (goIndexAcc key) = refAcc key := by
  unfold goIndexAcc refAcc
  have main : ∀ (l : List Nat) (h : Int), -2 ^ 63 ≤ h → h < 2 ^ 63 →
      (-2 ^ 63 ≤ l.foldl (fun h b => wrap64 (31 * h + ((b % 256 : Nat) : Int))) h ∧
       l.foldl (fun h b => wrap64 (31 * h + ((b % 256 : Nat) : Int))) h < 2 ^ 63 ∧
       u64 (l.foldl (fun h b => wrap64 (31 * h + ((b % 256 : Nat) : Int))) h) =
         l.foldl (fun h b => (31 * h + b % 256) % 2 ^ 64) (u64 h)) := by
    intro l
    induction l with
    | nil =>
      intro h h1 h2
      exact ⟨h1, h2, rfl⟩
    | cons b rest ih =>
      intro h h1 h2
      simp only [List.foldl_cons]
      obtain ⟨w1, w2⟩ := wrap64_bounds (31 * h + ((b % 256 : Nat) : Int))
      obtain ⟨a1, a2, a3⟩ := ih _ w1 w2
      refine ⟨a1, a2, ?_⟩
      rw [a3, u64_wrap_step]
  have h0 : u64 0 = 0 := by decide
  have hmain := main key 0 (by norm_num) (by norm_num)
  rw [h0] at hmain
  exact hmain

theorem u64_goIndex (key : Key) :
    u64 (goIndex key) = refAcc key ^^^
      (refAcc key / 2 ^ 16 + (refAcc key / 2 ^ 63) * (2 ^ 64 - 2 ^ 48)) := by
  obtain ⟨h1, h2, h3⟩ := goIndexAcc_spec key
  unfold goIndex xor64
  rw [u64_ofU64]
  rw [u64_sar16 (goIndexAcc key) h1 h2, h3]
  have hu : refAcc key < 2 ^ 64 := by
    rw [← h3]
    exact u64_lt _
  have hS : refAcc key / 2 ^ 16 + (refAcc key / 2 ^ 63) * (2 ^ 64 - 2 ^ 48) < 2 ^ 64 := by
    omega
  exact Nat.mod_eq_of_lt (Nat.xor_lt_two_pow hu hS)

theorem mask_sar_eq (u : Nat) (k : Nat) (hk : k ≤ 48) :
    (u ^^^ (u / 2 ^ 16 + (u / 2 ^ 63) * (2 ^ 64 - 2 ^ 48))) &&& (2 ^ k - 1)
      = (u ^^^ (u >>> 16)) &&& (2 ^ k - 1) := by
  rw [Nat.and_xor_distrib_right, Nat.and_xor_distrib_right,
    Nat.shiftRight_eq_div_pow]
  congr 1
  rw [Nat.and_pow_two_sub_one_eq_mod, Nat.and_pow_two_sub_one_eq_mod]
  have hsplit : (u / 2 ^ 63) * (2 ^ 64 - 2 ^ 48)
      = ((u / 2 ^ 63) * (2 ^ 16 - 1) * 2 ^ (48 - k)) * 2 ^ k := by
    have h48 : (2 : Nat) ^ (48 - k) * 2 ^ k = 2 ^ 48 := by
      rw [← pow_add]
      congr 1
      omega
    calc (u / 2 ^ 63) * (2 ^ 64 - 2 ^ 48)
        = (u / 2 ^ 63) * ((2 ^ 16 - 1) * 2 ^ 48) := by norm_num
      _ = ((u / 2 ^ 63) * (2 ^ 16 - 1) * 2 ^ (48 - k)) * 2 ^ k := by
          rw [← h48]
          ring
  rw [hsplit, Nat.add_mul_mod_self_right]

/-- Claim C10: segment selection is always in bounds: for every key and
every cache whose segment count is a power of two N ≥ 1 (a positive Go
int, so N < 2^63), the computed `index(key) & (N-1)` lies in [0, N), even
when the accumulated hash is negative, so segmentOf never indexes the
segments array out of range. -/
theorem claim10_segment_index_in_bounds (key : Key) (n : Int)
    (hpow : ∃ k : Nat, n = 2 ^ k) (h1 : 1 ≤ n) (h63 : n < 2 ^ 63) :
    0 ≤ segIndex key n ∧ segIndex key n < n := by
  clear hpow
  unfold segIndex and64
  have hu : u64 (n - 1) = (n - 1).toNat := by
    unfold u64
    omega
  have hland : u64 (goIndex key) &&& u64 (n - 1) ≤ (n - 1).toNat := by
    rw [hu]
    exact Nat.and_le_right
  rw [ofU64_small _ (by omega)]
  omega

/-- Witness for C10 at the key [255, 1, 2] and segment count 1024. -/
theorem claim10_witness :
    0 ≤ segIndex [255, 1, 2] 1024 ∧ segIndex [255, 1, 2] 1024 < 1024 :=
  claim10_segment_index_in_bounds [255, 1, 2] 1024 ⟨10, by norm_num⟩
    (by norm_num) (by norm_num)

/-- Claim C5 counterexample: at the 14-byte key FF..FF the 64-bit hash
accumulator is negative, and with the power-of-two segment count N = 2^49
the implementation (arithmetic shift in the fold) and the reference hash
(logical shift) select different indices, so the claimed equality for
every power-of-two N fails. -/
theorem claim5_counterexample :
    segIndex (List.replicate 14 255) ((2 ^ 49 : Nat) : Int) ≠
      ((refSegIndex (List.replicate 14 255) (2 ^ 49) : Nat) : Int) := by
  set_option maxRecDepth 40000 in decide

/-- Claim C5 (amended): for every key, the segment index computed by the
cache equals the reference hash (unsigned 64-bit accumulation of
h = 31*h + b, logical-shift fold h ^^^ (h >>> 16), index h &&& (N-1)) for
every power-of-two segment count N = 2^k with k ≤ 48; beyond 2^48 the
sign bits reached by the arithmetic shift of the implementation can differ.
The index is a pure function of the key bytes, hence deterministic and
stable for the lifetime of a cache instance. -/
theorem claim5_index_matches_reference (key : Key) (n : Nat)
    (hpow : ∃ k : Nat, k ≤ 48 ∧ n = 2 ^ k) :
    segIndex key (n : Int) = ((refSegIndex key n : Nat) : Int) := by
  obtain ⟨k, hk, rfl⟩ := hpow
  have h2k : (1 : Nat) ≤ 2 ^ k := Nat.one_le_two_pow
  have hk48 : (2 : Nat) ^ k ≤ 2 ^ 48 := Nat.pow_le_pow_right (by norm_num) hk
  unfold segIndex and64
  have hmask : u64 (((2 ^ k : Nat) : Int) - 1) = 2 ^ k - 1 := by
    unfold u64
    omega
  rw [hmask, u64_goIndex]
  rw [mask_sar_eq (refAcc key) k hk]
  have hbound : (refAcc key ^^^ refAcc key >>> 16) &&& (2 ^ k - 1) < 2 ^ 63 := by
    have hle : (refAcc key ^^^ refAcc key >>> 16) &&& (2 ^ k - 1) ≤ 2 ^ k - 1 :=
      Nat.and_le_right
    omega
  rw [ofU64_small _ hbound]
  unfold refSegIndex refFold
  rfl

/-- Witness for the amended C5 at the key "hello" and N = 1024. -/
theorem claim5_witness :
    segIndex [104, 101, 108, 108, 111] ((1024 : Nat) : Int) =
      ((refSegIndex [104, 101, 108, 108, 111] 1024 : Nat) : Int) :=
  claim5_index_matches_reference [104, 101, 108, 108, 111] 1024
    ⟨10, by norm_num, by norm_num⟩
